import Mathlib

/-!
Verification of the event-sourced user service (Fastify/Prisma repository).

The definitions below are a shallow embedding of the TypeScript source:

* `src/shared/utils/index.ts`        — `validateEmail`, `validateName`
* `src/domain/events/DomainEvent.ts` — `BaseDomainEvent` (always `eventVersion = 1`)
* `src/domain/events/UserEvents.ts`  — `UserCreatedEvent` / `UserUpdatedEvent` / `UserDeletedEvent`
* `src/domain/entities/AggregateRoot.ts` — version counting, `applyEvent`, `replayEvents`
* `src/domain/entities/User.ts`      — the aggregate (actor-stamped variant with
  `fromCreationEvent`, the variant the spec designates as authoritative)
* `src/infrastructure/repositories/PrismaEventStore.ts` — `saveEvents`, `getEvents`, `getSnapshot`
* `src/infrastructure/repositories/EventSourcedUserRepository.ts` — `save`, `findById`,
  `findByEmail`, `findMany`, `getUserHistory`
* `src/infrastructure/repositories/PrismaOutboxRepository.ts` — outbox `save`
* `src/shared/types (PrismaUnitOfWork)` + `src/application/usecases/CreateUserUseCaseImpl.ts`
  — the write-path transaction boundary

Dates are modelled as `Nat` timestamps, JavaScript `undefined`/`null` as `Option`,
thrown exceptions as `Except`.  Database tables are lists of rows; a Prisma write
through the global client commits immediately (the embedding threads the table
state explicitly).  Surrogate row ids (`crypto.randomUUID`) are not modelled: no
code path relevant to the claims reads them.
-/

/-- Actor reference carried by createdBy/updatedBy/deletedBy (shared/types/UserInfo). -/
structure UserInfo where
  uid : String
  uname : String
  uemail : String
deriving Repr, DecidableEq

/-- Trace metadata attached to emitted events (shared/types, TraceMetadata). -/
structure TraceMetadata where
  traceId : String
  spanId : String
deriving Repr, DecidableEq

/-- Error taxonomy of the service (shared/errors plus the plain `Error`s thrown by
the event store and replay paths).  `concurrency` keeps the expected and actual
versions that the thrown message interpolates. -/
inductive UError where
  | validation (msg : String)
  | conflict (msg : String)
  | notFound (msg : String)
  | concurrency (expected actual : Nat)
  | unknownEventType (t : String)
  | emptyStream
  | generic (msg : String)
deriving Repr, DecidableEq

/-- Character class `[^\s@]` of the email regex. -/
def emailChar (c : Char) : Bool :=
  !(c == '@') && !c.isWhitespace

/-- Splits a character list at the first occurrence of `c`; `none` if absent. -/
def splitAtChar (c : Char) : List Char → List Char × Option (List Char)
  | [] => ([], none)
  | x :: xs =>
    if x = c then ([], some xs)
    else
      let p := splitAtChar c xs
      (x :: p.1, p.2)

/-- shared/utils `validateEmail`: the regex `^[^\s@]+@[^\s@]+\.[^\s@]+$`.
A string matches iff it is `L @ D` with `L` a nonempty run of `[^\s@]`, and `D`
a run of `[^\s@]` containing a dot that has at least one character on each side. -/
def validateEmail (s : String) : Bool :=
  let cs := s.toList
  let p := splitAtChar '@' cs
  match p.2 with
  | none => false
  | some dom =>
    !p.1.isEmpty && p.1.all emailChar && !dom.isEmpty && dom.all emailChar &&
      ((dom.drop 1).dropLast.contains '.')

/-- JavaScript `String.prototype.trim`: strip leading and trailing whitespace
(computable list implementation; the library `String.trim` is extensionally the
same but its substring machinery does not reduce in the kernel). -/
def jsTrim (s : String) : String :=
  String.mk (((s.toList.dropWhile Char.isWhitespace).reverse.dropWhile Char.isWhitespace).reverse)

/-- JavaScript `String.prototype.toLowerCase` (ASCII as used here). -/
def jsToLower (s : String) : String :=
  String.mk (s.toList.map Char.toLower)

/-- shared/utils `validateName`: trimmed length between 2 and 100. -/
def validateName (s : String) : Bool :=
  2 ≤ (jsTrim s).length && (jsTrim s).length ≤ 100

/-- JavaScript `x || d` on an optional string (empty string is falsy). -/
def jsOrStr (v : Option String) (d : String) : String :=
  match v with
  | none => d
  | some s => if s = "" then d else s

/-- Event payload fields the code reads (`eventData` is `any` in the source; this
record covers the union of fields written by the three user events, each
optional to represent absent/undefined JSON members). -/
structure EventData where
  email : Option String := none
  name : Option String := none
  deletedAt : Option Nat := none
  createdBy : Option UserInfo := none
  updatedBy : Option UserInfo := none
  deletedBy : Option UserInfo := none
  previousName : Option String := none
  previousEmail : Option String := none
  version : Option Nat := none
deriving Repr, DecidableEq

/-- domain/events/DomainEvent.ts `DomainEvent` shape (surrogate event id omitted). -/
structure DomainEvent where
  aggregateId : String
  eventType : String
  eventVersion : Nat
  occurredAt : Nat
  eventData : EventData
  metadata : Option TraceMetadata
deriving Repr, DecidableEq

/-- `BaseDomainEvent` constructor: stamps `occurredAt` with the current time and
hard-codes `eventVersion = 1`. -/
def BaseDomainEvent.make (aggregateId eventType : String) (eventData : EventData)
    (metadata : Option TraceMetadata) (now : Nat) : DomainEvent :=
  { aggregateId := aggregateId, eventType := eventType, eventVersion := 1,
    occurredAt := now, eventData := eventData, metadata := metadata }

/-- `UserCreatedEvent` (UserEvents.ts). -/
def UserCreatedEvent.make (aggregateId : String) (eventData : EventData)
    (metadata : Option TraceMetadata) (now : Nat) : DomainEvent :=
  BaseDomainEvent.make aggregateId "UserCreated" eventData metadata now

/-- `UserUpdatedEvent` (UserEvents.ts). -/
def UserUpdatedEvent.make (aggregateId : String) (eventData : EventData)
    (metadata : Option TraceMetadata) (now : Nat) : DomainEvent :=
  BaseDomainEvent.make aggregateId "UserUpdated" eventData metadata now

/-- `UserDeletedEvent` (UserEvents.ts). -/
def UserDeletedEvent.make (aggregateId : String) (eventData : EventData)
    (metadata : Option TraceMetadata) (now : Nat) : DomainEvent :=
  BaseDomainEvent.make aggregateId "UserDeleted" eventData metadata now

/-- Row of the `event_logs` table (PrismaEventStore writes; surrogate id omitted,
append order of the list is the monotonic `position`). -/
structure EventRecord where
  aggregateId : String
  eventType : String
  eventVersion : Nat
  eventData : EventData
  metadata : Option TraceMetadata
  occurredAt : Nat
  updatedBy : Option UserInfo
deriving Repr, DecidableEq

/-- PrismaEventStore `extractUpdatedBy`: prefers `updatedBy`, falls back to
`deletedBy`, else null. -/
def extractUpdatedBy (d : EventData) : Option UserInfo :=
  match d.updatedBy with
  | some u => some u
  | none => d.deletedBy

/-- PrismaEventStore: `findFirst({where: {aggregateId}, orderBy: {eventVersion: desc}})`
followed by `lastEvent?.eventVersion || 0` — the highest stored version, 0 if none. -/
def currentVersion (log : List EventRecord) (aggregateId : String) : Nat :=
  ((log.filter (fun r => r.aggregateId = aggregateId)).map (fun r => r.eventVersion)).foldr max 0

/-- Record built for the event at position `i` of the batch: the stream sequence
number is `expectedVersion + i + 1`, ignoring the event object's own
`eventVersion` field. -/
def toEventRecord (expectedVersion : Nat) (p : Nat × DomainEvent) : EventRecord :=
  { aggregateId := p.2.aggregateId, eventType := p.2.eventType,
    eventVersion := expectedVersion + p.1 + 1, eventData := p.2.eventData,
    metadata := p.2.metadata, occurredAt := p.2.occurredAt,
    updatedBy := extractUpdatedBy p.2.eventData }

/-- PrismaEventStore `saveEvents`.  The body runs inside one `$transaction`, so a
thrown concurrency conflict rolls every insert of this call back: the error
branches return the log unchanged.  Empty batches return immediately without a
transaction. -/
def saveEvents (log : List EventRecord) (aggregateId : String)
    (events : List DomainEvent) (expectedVersion : Nat) :
    Except UError Unit × List EventRecord :=
  if events.length = 0 then (.ok (), log)
  else
    let cur := currentVersion log aggregateId
    if cur ≠ expectedVersion then
      (.error (.concurrency expectedVersion cur), log)
    else
      (.ok (), log ++ events.enum.map (toEventRecord expectedVersion))

/-- Insert into a list sorted by ascending `eventVersion` (stable). -/
def insertByVersion (r : EventRecord) : List EventRecord → List EventRecord
  | [] => [r]
  | x :: xs =>
    if r.eventVersion < x.eventVersion then r :: x :: xs
    else x :: insertByVersion r xs

/-- Sort by ascending `eventVersion` (models `orderBy: {eventVersion: asc}`). -/
def sortByVersion (l : List EventRecord) : List EventRecord :=
  l.foldr insertByVersion []

/-- Reverse of `toEventRecord` projection used by every event-store read. -/
def recordToEvent (r : EventRecord) : DomainEvent :=
  { aggregateId := r.aggregateId, eventType := r.eventType,
    eventVersion := r.eventVersion, occurredAt := r.occurredAt,
    eventData := r.eventData, metadata := r.metadata }

/-- PrismaEventStore `getEvents`: rows of the aggregate with version strictly
above `fromVersion` when given, ascending version order. -/
def getEvents (log : List EventRecord) (aggregateId : String)
    (fromVersion : Option Nat) : List DomainEvent :=
  let rows := log.filter fun r =>
    r.aggregateId = aggregateId &&
      (match fromVersion with
       | none => true
       | some v => v < r.eventVersion)
  (sortByVersion rows).map recordToEvent

/-- PrismaEventStore `EventStream` (domain/repositories/EventStore.ts). -/
structure EventStream where
  aggregateId : String
  events : List DomainEvent
  version : Nat
deriving Repr, DecidableEq

/-- PrismaEventStore `getSnapshot`: all events plus the version of the last one;
null when the aggregate has no events. -/
def getSnapshot (log : List EventRecord) (aggregateId : String) : Option EventStream :=
  let events := getEvents log aggregateId none
  match events.getLast? with
  | none => none
  | some lastEvent =>
    some { aggregateId := aggregateId, events := events, version := lastEvent.eventVersion }

/-- domain/entities/User.ts state: `AggregateRoot` fields (`id`, `createdAt`,
`updatedAt`, `_version`, `_domainEvents`) plus the User fields.  `_email` and
`_name` are `Option String` because the `when` handlers assign possibly-absent
payload members directly; every public construction path stores `some`. -/
structure User where
  id : String
  createdAt : Nat
  updatedAt : Nat
  email : Option String
  name : Option String
  deletedAt : Option Nat
  createdBy : Option UserInfo
  updatedBy : Option UserInfo
  deletedBy : Option UserInfo
  version : Nat
  domainEvents : List DomainEvent
deriving Repr, DecidableEq

/-- `user.isDeleted`: the soft-delete marker is set. -/
def User.isDeleted (u : User) : Bool :=
  u.deletedAt ≠ none

/-- AggregateRoot `addDomainEvent`: push the event, bump the version, touch
`updatedAt` with the current time. -/
def User.addDomainEvent (u : User) (ev : DomainEvent) (now : Nat) : User :=
  { u with domainEvents := u.domainEvents ++ [ev], version := u.version + 1,
           updatedAt := now }

/-- AggregateRoot `clearDomainEvents`. -/
def User.clearDomainEvents (u : User) : User :=
  { u with domainEvents := [] }

/-- AggregateRoot `applyEvent` (replay bookkeeping): bump the version and set
`updatedAt` from the event timestamp; never touches the uncommitted buffer. -/
def User.applyEvent (u : User) (ev : DomainEvent) : User :=
  { u with version := u.version + 1, updatedAt := ev.occurredAt }

/-- The User constructor: validates the email format, then the name length, and
otherwise initialises the fields with version 0 and an empty event buffer.
A missing (`undefined`) email string fails the regex test (`test(undefined)`
tests the literal string "undefined"); a missing name would crash `trim` —
modelled as a generic error on a path no caller reaches. -/
def User.make (id : String) (email name : Option String)
    (createdAt updatedAt : Nat) (deletedAt : Option Nat)
    (createdBy updatedBy deletedBy : Option UserInfo) : Except UError User :=
  if !(match email with | some e => validateEmail e | none => false) then
    .error (.validation "Invalid email format")
  else
    match name with
    | none => .error (.generic "TypeError: name is undefined")
    | some n =>
      if !validateName n then
        .error (.validation "Name must be between 2 and 100 characters")
      else
        .ok { id := id, createdAt := createdAt, updatedAt := updatedAt,
              email := email, name := name, deletedAt := deletedAt,
              createdBy := createdBy, updatedBy := updatedBy,
              deletedBy := deletedBy, version := 0, domainEvents := [] }

/-- `User.create`: normalises the email (lowercase + trim) and name (trim),
builds the user through the validating constructor, then emits one
`UserCreated` event carrying the normalised values and the creating actor.
The generated uuid and the clock are passed in as `id` and `now`. -/
def User.create (id : String) (now : Nat) (email name : String)
    (createdBy : Option UserInfo) (md : Option TraceMetadata) : Except UError User :=
  match User.make id (some (jsTrim (jsToLower email))) (some (jsTrim name)) now now none
      createdBy none none with
  | .error e => .error e
  | .ok u =>
    let eventData : EventData :=
      { email := u.email, name := u.name, createdBy := createdBy }
    let ev := UserCreatedEvent.make u.id eventData md now
    .ok (u.addDomainEvent ev now)

/-- `user.updateName`: rejects mutations of a deleted user and invalid names;
returns the unchanged user when the trimmed value equals the current name;
otherwise updates the name and `updatedBy`, and emits a `UserUpdated` event
carrying the new name and the previous one. -/
def User.updateName (u : User) (newName : String) (updatedBy : Option UserInfo)
    (now : Nat) (md : Option TraceMetadata) : Except UError User :=
  if u.isDeleted then .error (.validation "Cannot update deleted user")
  else if !validateName newName then
    .error (.validation "Name must be between 2 and 100 characters")
  else
    let trimmedName := jsTrim newName
    if some trimmedName = u.name then .ok u
    else
      let oldName := u.name
      let u1 := { u with name := some trimmedName, updatedBy := updatedBy }
      let eventData : EventData :=
        { name := some trimmedName, previousName := oldName, updatedBy := updatedBy }
      let ev := UserUpdatedEvent.make u.id eventData md now
      .ok (u1.addDomainEvent ev now)

/-- `user.updateEmail`: rejects mutations of a deleted user and invalid emails;
returns the unchanged user when the normalised value equals the current email;
otherwise updates the email and `updatedBy`, and emits a `UserUpdated` event
carrying the new email and the previous one. -/
def User.updateEmail (u : User) (newEmail : String) (updatedBy : Option UserInfo)
    (now : Nat) (md : Option TraceMetadata) : Except UError User :=
  if u.isDeleted then .error (.validation "Cannot update deleted user")
  else if !validateEmail newEmail then
    .error (.validation "Invalid email format")
  else
    let normalizedEmail := jsTrim (jsToLower newEmail)
    if some normalizedEmail = u.email then .ok u
    else
      let oldEmail := u.email
      let u1 := { u with email := some normalizedEmail, updatedBy := updatedBy }
      let eventData : EventData :=
        { email := some normalizedEmail, previousEmail := oldEmail, updatedBy := updatedBy }
      let ev := UserUpdatedEvent.make u.id eventData md now
      .ok (u1.addDomainEvent ev now)

/-- `user.delete`: a no-op when already deleted; otherwise stamps `deletedAt`
and `deletedBy` and emits a `UserDeleted` event with the full payload. -/
def User.delete (u : User) (deletedBy : Option UserInfo) (now : Nat)
    (md : Option TraceMetadata) : User :=
  if u.isDeleted then u
  else
    let u1 := { u with deletedAt := some now, deletedBy := deletedBy, updatedAt := now }
    let eventData : EventData :=
      { email := u.email, name := u.name, deletedAt := some now, deletedBy := deletedBy }
    let ev := UserDeletedEvent.make u.id eventData md now
    u1.addDomainEvent ev now

/-- `whenUserCreated`: assigns email and name straight from the payload and
clears the soft-delete marker; no validation, no version change, no append. -/
def User.whenUserCreated (u : User) (ev : DomainEvent) : User :=
  { u with email := ev.eventData.email, name := ev.eventData.name, deletedAt := none }

/-- `whenUserUpdated`: assigns email and name from the payload only when the
member is present (`!== undefined`); actor stamps are left untouched. -/
def User.whenUserUpdated (u : User) (ev : DomainEvent) : User :=
  let u1 := match ev.eventData.email with
    | some e => { u with email := some e }
    | none => u
  match ev.eventData.name with
  | some n => { u1 with name := some n }
  | none => u1

/-- `whenUserDeleted`: assigns the soft-delete timestamp from the payload;
`deletedBy` is left untouched. -/
def User.whenUserDeleted (u : User) (ev : DomainEvent) : User :=
  { u with deletedAt := ev.eventData.deletedAt }

/-- `user.when`: dispatch on `eventType`; unknown types are a hard error. -/
def User.when (u : User) (ev : DomainEvent) : Except UError User :=
  if ev.eventType = "UserCreated" then .ok (u.whenUserCreated ev)
  else if ev.eventType = "UserUpdated" then .ok (u.whenUserUpdated ev)
  else if ev.eventType = "UserDeleted" then .ok (u.whenUserDeleted ev)
  else .error (.unknownEventType ev.eventType)

/-- `User.fromCreationEvent`: rebuilds the initial user from the first event,
using `||`-fallback strings for falsy payload members and the payload actor as
`createdBy`; runs the validating constructor. -/
def User.fromCreationEvent (ev : DomainEvent) : Except UError User :=
  if ev.eventType ≠ "UserCreated" then
    .error (.generic "Invalid creation event type for User aggregate")
  else
    User.make ev.aggregateId
      (some (jsOrStr ev.eventData.email "unknown@example.com"))
      (some (jsOrStr ev.eventData.name "Unknown User"))
      ev.occurredAt ev.occurredAt none ev.eventData.createdBy none none

/-- One replay step for events after the first: run the `when` handler, then
`applyEvent` for the version/timestamp bookkeeping. -/
def User.replayStep (u : User) (ev : DomainEvent) : Except UError User :=
  match u.when ev with
  | .error e => .error e
  | .ok u1 => .ok (u1.applyEvent ev)

/-- Fold of `replayStep` over the tail of the stream. -/
def User.replayRest (u : User) : List DomainEvent → Except UError User
  | [] => .ok u
  | ev :: evs =>
    match u.replayStep ev with
    | .error e => .error e
    | .ok u1 => u1.replayRest evs

/-- AggregateRoot `replayEvents` specialised to `User` (the variant taking the
`fromCreationEvent` branch, since `User` provides that static factory): an
empty stream is an error; the first event builds the initial state through
`fromCreationEvent` and is then only `applyEvent`-ed; every later event goes
through the `when` handler followed by `applyEvent`. -/
def User.replayEvents : List DomainEvent → Except UError User
  | [] => .error .emptyStream
  | firstEvent :: rest =>
    match User.fromCreationEvent firstEvent with
    | .error e => .error e
    | .ok u0 => (u0.applyEvent firstEvent).replayRest rest

/-- Row of the `users` snapshot table. -/
structure UserRow where
  id : String
  email : Option String
  name : Option String
  version : Nat
  createdAt : Nat
  updatedAt : Nat
  deletedAt : Option Nat
  createdBy : Option UserInfo
  updatedBy : Option UserInfo
  deletedBy : Option UserInfo
deriving Repr, DecidableEq

/-- Row of the `outbox_events` table.  The delivery payload is the outbox
`eventData` object `{id, ...domainEvent.eventData}` (the delete use case also
spreads a version). -/
structure OutboxRow where
  id : String
  eventType : String
  payloadId : String
  payloadVersion : Option Nat
  payload : EventData
  metadata : Option TraceMetadata
  processed : Bool
  processedAt : Option Nat
  createdAt : Nat
deriving Repr, DecidableEq

/-- The three tables every repository reaches through the shared global Prisma
client (`DatabaseClient.getInstance()`); the list order of `eventLog` and
`outbox` is insertion order. -/
structure DB where
  eventLog : List EventRecord
  users : List UserRow
  outbox : List OutboxRow
deriving Repr, DecidableEq

/-- The empty database. -/
def DB.empty : DB := { eventLog := [], users := [], outbox := [] }

/-- `prisma.user.findUnique({where: {id, deletedAt: null}})`. -/
def findRowByIdLive (rows : List UserRow) (id : String) : Option UserRow :=
  rows.find? fun r => r.id = id && r.deletedAt = none

/-- `prisma.user.findUnique({where: {email, deletedAt: null}})`. -/
def findRowByEmailLive (rows : List UserRow) (email : Option String) : Option UserRow :=
  rows.find? fun r => r.email = email && r.deletedAt = none

/-- Rebuild a `User` from a snapshot row (`new User(record.id, record.email, ...)`
in the fallback paths — runs the validating constructor). -/
def userFromRow (r : UserRow) : Except UError User :=
  User.make r.id r.email r.name r.createdAt r.updatedAt r.deletedAt
    r.createdBy r.updatedBy r.deletedBy

/-- EventSourcedUserRepository `findById`: replay the full stream when the
aggregate has events (no soft-delete filter on this path); otherwise fall back
to the snapshot row, which is filtered to `deletedAt: null`. -/
def findByIdRepo (db : DB) (id : String) : Except UError (Option User) :=
  match getSnapshot db.eventLog id with
  | some stream =>
    match User.replayEvents stream.events with
    | .error e => .error e
    | .ok u => .ok (some u)
  | none =>
    match findRowByIdLive db.users id with
    | none => .ok none
    | some r =>
      match userFromRow r with
      | .error e => .error e
      | .ok u => .ok (some u)

/-- EventSourcedUserRepository `findByEmail`: snapshot lookup filtered to live
rows, then a full `findById` reconstruction of the matching id. -/
def findByEmailRepo (db : DB) (email : Option String) : Except UError (Option User) :=
  match findRowByEmailLive db.users email with
  | none => .ok none
  | some r => findByIdRepo db r.id

/-- `prisma.user.upsert` keyed by user id: update the business fields of the
existing row (its `createdAt`/`createdBy` are not in the update clause), or
insert a fresh full row. -/
def upsertUserRow (rows : List UserRow) (u : User) : List UserRow :=
  if rows.any (fun r => r.id = u.id) then
    rows.map fun r =>
      if r.id = u.id then
        { r with email := u.email, name := u.name, version := u.version,
                 updatedAt := u.updatedAt, deletedAt := u.deletedAt,
                 updatedBy := u.updatedBy, deletedBy := u.deletedBy }
      else r
  else
    rows ++ [{ id := u.id, email := u.email, name := u.name, version := u.version,
               createdAt := u.createdAt, updatedAt := u.updatedAt,
               deletedAt := u.deletedAt, createdBy := u.createdBy,
               updatedBy := u.updatedBy, deletedBy := u.deletedBy }]

/-- EventSourcedUserRepository `save`: uniqueness pre-check through
`findByEmail` (ConflictError when the email belongs to a different id) before
any append; then `saveEvents` with `expectedVersion = version − buffer length`
and, on success, clear the buffer and upsert the snapshot row.  Every error
leaves the database exactly as the already-committed prefix of the call left
it: the conflict and lookup errors precede all writes, and a `saveEvents`
failure rolls its own transaction back. -/
def saveRepo (db : DB) (u : User) : Except UError User × DB :=
  match findByEmailRepo db u.email with
  | .error e => (.error e, db)
  | .ok existingUser =>
    match existingUser with
    | some ex =>
      if ex.id ≠ u.id then
        (.error (.conflict "User with email already exists"), db)
      else saveRepoWrite db u
    | none => saveRepoWrite db u
where
  /-- The write half of `save`: event append (when the buffer is non-empty),
  buffer clear, snapshot upsert. -/
  saveRepoWrite (db : DB) (u : User) : Except UError User × DB :=
    if u.domainEvents.length > 0 then
      match saveEvents db.eventLog u.id u.domainEvents (u.version - u.domainEvents.length) with
      | (.error e, log1) => (.error e, { db with eventLog := log1 })
      | (.ok _, log1) =>
        let u1 := u.clearDomainEvents
        (.ok u1, { db with eventLog := log1, users := upsertUserRow db.users u1 })
    else
      (.ok u, { db with users := upsertUserRow db.users u })

/-- Insert into a list sorted by descending `createdAt` (stable; models
`orderBy: {createdAt: desc}`). -/
def insertByCreatedDesc (r : UserRow) : List UserRow → List UserRow
  | [] => [r]
  | x :: xs =>
    if x.createdAt < r.createdAt then r :: x :: xs
    else x :: insertByCreatedDesc r xs

/-- Sort snapshot rows by descending creation time. -/
def sortByCreatedDesc (l : List UserRow) : List UserRow :=
  l.foldr insertByCreatedDesc []

/-- Rebuild each page row through the validating constructor. -/
def usersFromRows : List UserRow → Except UError (List User)
  | [] => .ok []
  | r :: rs =>
    match userFromRow r with
    | .error e => .error e
    | .ok u =>
      match usersFromRows rs with
      | .error e => .error e
      | .ok us => .ok (u :: us)

/-- EventSourcedUserRepository `findMany`: `findMany({skip, take, where:
{deletedAt: null}, orderBy: {createdAt: desc}})` paired with `count()` —
note the count has no `where` clause. -/
def findManyRepo (db : DB) (page limit : Nat) : Except UError (List User × Nat) :=
  let offset := (page - 1) * limit
  let pageRows := ((sortByCreatedDesc (db.users.filter fun r => r.deletedAt = none)).drop offset).take limit
  let total := db.users.length
  match usersFromRows pageRows with
  | .error e => .error e
  | .ok us => .ok (us, total)

/-- Shape returned by `getUserHistory` for each stored event. -/
structure HistoryEntry where
  eventType : String
  eventData : EventData
  occurredAt : Nat
  version : Nat
  metadata : Option TraceMetadata
deriving Repr, DecidableEq

/-- EventSourcedUserRepository `getUserHistory`: every stored event of the
aggregate, unfiltered, in ascending version order. -/
def getUserHistory (db : DB) (id : String) : List HistoryEntry :=
  (getEvents db.eventLog id none).map fun e =>
    { eventType := e.eventType, eventData := e.eventData,
      occurredAt := e.occurredAt, version := e.eventVersion,
      metadata := e.metadata }

/-- PrismaOutboxRepository `save`: plain insert with `processed = false` through
the global client.  `canFail = true` models an injected infrastructure failure
of this single insert (a lost connection or constraint error): the insert
itself then writes nothing, and — because the repository always talks to the
global client — everything committed before it stays committed. -/
def outboxSave (db : DB) (row : OutboxRow) (canFail : Bool) : Except UError Unit × DB :=
  if canFail then (.error (.generic "outbox insert failed"), db)
  else (.ok (), { db with outbox := db.outbox ++ [row] })

/-- OutboxEvent.create + the create-use-case payload `{id: savedUser.id,
...domainEvent.eventData}` with `processed = false`. -/
def mkOutboxRow (outboxId eventType : String) (payloadId : String)
    (payloadVersion : Option Nat) (ev : DomainEvent) (md : Option TraceMetadata)
    (now : Nat) : OutboxRow :=
  { id := outboxId, eventType := eventType, payloadId := payloadId,
    payloadVersion := payloadVersion, payload := ev.eventData, metadata := md,
    processed := false, processedAt := none, createdAt := now }

/-- PrismaUnitOfWork `execute`: `prisma.$transaction(async () => fn())`.
The transaction callback discards the `tx` client argument, so every operation
inside `fn` reaches the database through the global client (the repositories
each hold `DatabaseClient.getInstance()`) and commits on its own; the
surrounding transaction performs no writes of its own, hence rolling it back
on failure restores nothing.  The embedding therefore runs `fn` directly on
the shared state, keeping whatever `fn` committed before it failed. -/
def unitOfWorkExecute {α : Type} (fn : DB → Except UError α × DB) (db : DB) :
    Except UError α × DB :=
  fn db

/-- Outbox loop of CreateUserUseCaseImpl: one `OutboxEvent.create` + save per
copied domain event. -/
def outboxLoop (db : DB) (eventType : String) (payloadId : String)
    (payloadVersion : Option Nat) (events : List DomainEvent)
    (md : Option TraceMetadata) (outboxId : String) (now : Nat)
    (outboxFails : Bool) : Except UError Unit × DB :=
  match events with
  | [] => (.ok (), db)
  | ev :: evs =>
    match outboxSave db (mkOutboxRow outboxId eventType payloadId payloadVersion ev md now) outboxFails with
    | (.error e, db1) => (.error e, db1)
    | (.ok _, db1) => outboxLoop db1 eventType payloadId payloadVersion evs md outboxId now outboxFails

/-- CreateUserUseCaseImpl.execute, inside `unitOfWork.execute`: duplicate-email
check, `User.create`, a copy of the uncommitted events, `userRepository.save`,
then one outbox save per copied event with type "user.created".
`outboxFails` injects a failure of the outbox insert — the scenario of the
outbox-atomicity property ("transaction fails after the append but before the
outbox save"). -/
def createUserRun (db : DB) (email name : String) (newId : String) (now : Nat)
    (md : Option TraceMetadata) (outboxId : String) (outboxFails : Bool) :
    Except UError User × DB :=
  unitOfWorkExecute (fun db0 =>
    match findByEmailRepo db0 (some email) with
    | .error e => (.error e, db0)
    | .ok (some _) => (.error (.conflict "User with email already exists"), db0)
    | .ok none =>
      match User.create newId now email name none md with
      | .error e => (.error e, db0)
      | .ok user =>
        let domainEvents := user.domainEvents
        match saveRepo db0 user with
        | (.error e, db1) => (.error e, db1)
        | (.ok savedUser, db1) =>
          match outboxLoop db1 "user.created" savedUser.id none domainEvents md outboxId now outboxFails with
          | (.error e, db2) => (.error e, db2)
          | (.ok _, db2) => (.ok savedUser, db2)) db

/-! ## Helper lemmas -/

lemma foldr_max_range' (k s : Nat) : (List.range' s (k + 1)).foldr max 0 = s + k := by
  induction k generalizing s with
  | zero => simp [List.range'_succ]
  | succ k ih =>
    rw [List.range'_succ]
    simp only [List.foldr_cons, ih (s + 1)]
    omega

lemma enumFrom_toEventRecord (c : Nat) (l : List DomainEvent) :
    ∀ n : Nat,
      (((List.enumFrom n l).map (toEventRecord c)).map fun r => r.eventVersion) =
          List.range' (c + n + 1) l.length ∧
      (((List.enumFrom n l).map (toEventRecord c)).map fun r => r.eventData) =
          l.map (fun e => e.eventData) ∧
      (((List.enumFrom n l).map (toEventRecord c)).map fun r => r.eventType) =
          l.map (fun e => e.eventType) ∧
      (((List.enumFrom n l).map (toEventRecord c)).map fun r => r.aggregateId) =
          l.map (fun e => e.aggregateId) := by
  induction l with
  | nil => intro n; simp
  | cons e l ih =>
    intro n
    obtain ⟨h1, h2, h3, h4⟩ := ih (n + 1)
    have harith : c + (n + 1) + 1 = c + n + 1 + 1 := by omega
    refine ⟨?_, ?_, ?_, ?_⟩
    · simp only [List.enumFrom_cons, List.map_cons, List.length_cons, List.range'_succ,
        h1, toEventRecord, harith]
    · simp only [List.enumFrom_cons, List.map_cons, h2, toEventRecord]
    · simp only [List.enumFrom_cons, List.map_cons, h3, toEventRecord]
    · simp only [List.enumFrom_cons, List.map_cons, h4, toEventRecord]

/-! ## C10 — event objects always carry eventVersion 1; the store assigns the
stream sequence number itself -/

/-- Sample event used to instantiate witnesses. -/
def sampleEvent : DomainEvent := UserCreatedEvent.make "a" {} none 0

/-- C10: every domain event object is constructed with `eventVersion = 1`
regardless of aggregate state (part 1); the stored sequence number is assigned
by the event store alone — overwriting the events' own `eventVersion` fields
changes nothing about the save (part 2), and the rows appended by a successful
save carry the consecutive versions `expectedVersion+1 ..` (part 3). -/
theorem eventVersion_one_until_append :
    (∀ (id : String) (d : EventData) (md : Option TraceMetadata) (now : Nat),
       (UserCreatedEvent.make id d md now).eventVersion = 1 ∧
       (UserUpdatedEvent.make id d md now).eventVersion = 1 ∧
       (UserDeletedEvent.make id d md now).eventVersion = 1) ∧
    (∀ (log : List EventRecord) (aggId : String) (events : List DomainEvent)
       (expected : Nat) (f : DomainEvent → Nat),
       saveEvents log aggId (events.map fun e => { e with eventVersion := f e }) expected =
         saveEvents log aggId events expected) ∧
    (∀ (log : List EventRecord) (aggId : String) (events : List DomainEvent)
       (expected : Nat), currentVersion log aggId = expected →
       (((saveEvents log aggId events expected).2.drop log.length).map fun r => r.eventVersion) =
         List.range' (expected + 1) events.length) := by
  refine ⟨fun id d md now => ⟨rfl, rfl, rfl⟩, ?_, ?_⟩
  · intro log aggId events expected f
    have hmap : ∀ (l : List DomainEvent) (n : Nat),
        (List.enumFrom n (l.map fun e => { e with eventVersion := f e })).map (toEventRecord expected) =
          (List.enumFrom n l).map (toEventRecord expected) := by
      intro l
      induction l with
      | nil => intro n; rfl
      | cons e l ih => intro n; simp only [List.map_cons, List.enumFrom_cons, ih (n + 1)]; rfl
    simp only [saveEvents, List.length_map, List.enum, hmap]
  · intro log aggId events expected hcur
    rcases events with _ | ⟨e, l⟩
    · simp [saveEvents, List.drop_length]
    · have hlen : (e :: l).length ≠ 0 := by simp
      have hnn : ¬(currentVersion log aggId ≠ expected) := fun h => h hcur
      have hsave : saveEvents log aggId (e :: l) expected =
          (.ok (), log ++ (e :: l).enum.map (toEventRecord expected)) := by
        simp only [saveEvents, if_neg hlen, if_neg hnn]
      rw [hsave]
      show ((log ++ (e :: l).enum.map (toEventRecord expected)).drop log.length).map _ = _
      rw [List.drop_left]
      simpa using (enumFrom_toEventRecord expected (e :: l) 0).1

/-- Witness for C10 at a concrete input: a single appended event is stored with
version `expected + 1 = 1`, and the event object itself carries version 1. -/
theorem eventVersion_one_until_append_witness :
    sampleEvent.eventVersion = 1 ∧
    (((saveEvents [] "a" [sampleEvent] 0).2.drop 0).map fun r => r.eventVersion) =
      List.range' 1 1 :=
  ⟨(eventVersion_one_until_append.1 "a" {} none 0).1,
   eventVersion_one_until_append.2.2 [] "a" [sampleEvent] 0 rfl⟩

/-! ## C1 — optimistic concurrency in `saveEvents` -/

/-- C1: for a non-empty batch, `saveEvents` reads the highest stored version of
the aggregate (0 when none); a mismatch with `expectedVersion` fails with the
concurrency-conflict error carrying both versions and leaves the log unchanged;
a match appends exactly the batch, with consecutive stored versions
`expectedVersion+1 .. expectedVersion+n` and the events' payloads and types. -/
theorem saveEvents_optimistic_concurrency (log : List EventRecord) (aggregateId : String)
    (events : List DomainEvent) (expectedVersion : Nat) (hne : events ≠ []) :
    (currentVersion log aggregateId ≠ expectedVersion →
      saveEvents log aggregateId events expectedVersion =
        (.error (.concurrency expectedVersion (currentVersion log aggregateId)), log)) ∧
    (currentVersion log aggregateId = expectedVersion →
      ∃ recs, saveEvents log aggregateId events expectedVersion = (.ok (), log ++ recs) ∧
        (recs.map fun r => r.eventVersion) = List.range' (expectedVersion + 1) events.length ∧
        (recs.map fun r => r.eventData) = events.map (fun e => e.eventData) ∧
        (recs.map fun r => r.eventType) = events.map (fun e => e.eventType)) := by
  have hlen : events.length ≠ 0 := fun h => hne (List.length_eq_zero.mp h)
  constructor
  · intro hne2
    simp only [saveEvents, if_neg hlen, if_pos hne2]
  · intro heq
    have hnn : ¬(currentVersion log aggregateId ≠ expectedVersion) := fun h => h heq
    refine ⟨events.enum.map (toEventRecord expectedVersion), ?_, ?_, ?_, ?_⟩
    · simp only [saveEvents, if_neg hlen, if_neg hnn]
    · simpa using (enumFrom_toEventRecord expectedVersion events 0).1
    · exact (enumFrom_toEventRecord expectedVersion events 0).2.1
    · exact (enumFrom_toEventRecord expectedVersion events 0).2.2.1

/-- Log of the spec's concrete scenario: the aggregate "a" is at stored version 7. -/
def logAt7 : List EventRecord :=
  [{ aggregateId := "a", eventType := "UserUpdated", eventVersion := 7,
     eventData := {}, metadata := none, occurredAt := 0, updatedBy := none }]

/-- Witness for C1, the spec's concrete scenario: appending one event with
`expectedVersion = 5` while the stored maximum is 7 fails with
`ConcurrencyConflict{expected: 5, actual: 7}` and inserts nothing. -/
theorem saveEvents_optimistic_concurrency_witness :
    saveEvents logAt7 "a" [sampleEvent] 5 = (.error (.concurrency 5 7), logAt7) :=
  (saveEvents_optimistic_concurrency logAt7 "a" [sampleEvent] 5 (by simp)).1 (by decide)

/-! ## C8 — no-op mutation law -/

/-- C8: on a live user whose name is in normal form (trimmed, length 2..100)
and whose email is in normal form (matches the validation regex and is
lowercase/trim stable — both invariants of every user built through
`User.create` and the mutation methods), `updateName` with any value trimming
to the current name and `updateEmail` with the current email return the user
completely unchanged: no event is appended and no field (version included)
moves. -/
theorem noop_mutation_law (u : User) (newName nm em : String) (actor : Option UserInfo)
    (now : Nat) (md : Option TraceMetadata)
    (hlive : u.deletedAt = none)
    (hname : u.name = some nm) (hn : jsTrim newName = nm)
    (hlen2 : 2 ≤ nm.length) (hlen100 : nm.length ≤ 100)
    (hemail : u.email = some em) (hev : validateEmail em = true)
    (hnorm : jsTrim (jsToLower em) = em) :
    User.updateName u newName actor now md = .ok u ∧
    User.updateEmail u em actor now md = .ok u := by
  have hdel : u.isDeleted = false := by
    simp [User.isDeleted, hlive]
  have hvn : validateName newName = true := by
    simp only [validateName, hn]
    simp [hlen2, hlen100]
  constructor
  · simp only [User.updateName, hdel, Bool.false_eq_true, if_false, hvn, Bool.not_true,
      hn, hname, if_pos rfl]
    simp
  · simp only [User.updateEmail, hdel, Bool.false_eq_true, if_false, hev, Bool.not_true,
      hnorm, hemail, if_pos rfl]
    simp

/-- A live, normal-form user as produced by `User.create "u1" 0 "a@x.com" "Ann"`
followed by committing the creation event (the buffer content is irrelevant to
the law, but this matches a freshly loaded aggregate). -/
def normalUser : User :=
  { id := "u1", createdAt := 0, updatedAt := 0, email := some "a@x.com",
    name := some "Ann", deletedAt := none, createdBy := none, updatedBy := none,
    deletedBy := none, version := 1, domainEvents := [] }

/-- Witness for C8: updating with the current name (with surrounding
whitespace, which trims away) and the current email changes nothing. -/
theorem noop_mutation_law_witness :
    User.updateName normalUser " Ann " none 3 none = .ok normalUser ∧
    User.updateEmail normalUser "a@x.com" none 3 none = .ok normalUser :=
  noop_mutation_law normalUser " Ann " "Ann" "a@x.com" none 3 none rfl rfl (by decide)
    (by decide) (by decide) rfl (by decide) (by decide)

/-! ## Frame lemmas for the constructor and the `when` handlers -/

lemma make_ok_eq {id : String} {email name : Option String} {cAt uAt : Nat}
    {dAt : Option Nat} {cBy uBy dBy : Option UserInfo} {u : User}
    (h : User.make id email name cAt uAt dAt cBy uBy dBy = .ok u) :
    u = { id := id, createdAt := cAt, updatedAt := uAt, email := email,
          name := name, deletedAt := dAt, createdBy := cBy, updatedBy := uBy,
          deletedBy := dBy, version := 0, domainEvents := [] } := by
  unfold User.make at h
  split at h
  · cases h
  · split at h
    · cases h
    · split at h
      · cases h
      · simp only [Except.ok.injEq] at h
        exact h.symm

lemma whenUserCreated_frame (u : User) (ev : DomainEvent) :
    (User.whenUserCreated u ev).domainEvents = u.domainEvents ∧
    (User.whenUserCreated u ev).id = u.id ∧
    (User.whenUserCreated u ev).version = u.version ∧
    (User.whenUserCreated u ev).createdBy = u.createdBy ∧
    (User.whenUserCreated u ev).updatedBy = u.updatedBy ∧
    (User.whenUserCreated u ev).deletedBy = u.deletedBy := by
  simp [User.whenUserCreated]

lemma whenUserUpdated_frame (u : User) (ev : DomainEvent) :
    (User.whenUserUpdated u ev).domainEvents = u.domainEvents ∧
    (User.whenUserUpdated u ev).id = u.id ∧
    (User.whenUserUpdated u ev).version = u.version ∧
    (User.whenUserUpdated u ev).deletedAt = u.deletedAt ∧
    (User.whenUserUpdated u ev).createdBy = u.createdBy ∧
    (User.whenUserUpdated u ev).updatedBy = u.updatedBy ∧
    (User.whenUserUpdated u ev).deletedBy = u.deletedBy := by
  unfold User.whenUserUpdated
  rcases hx : ev.eventData.email with _ | e <;> rcases hy : ev.eventData.name with _ | n <;>
    simp [hx, hy]

lemma whenUserDeleted_frame (u : User) (ev : DomainEvent) :
    (User.whenUserDeleted u ev).domainEvents = u.domainEvents ∧
    (User.whenUserDeleted u ev).id = u.id ∧
    (User.whenUserDeleted u ev).version = u.version ∧
    (User.whenUserDeleted u ev).email = u.email ∧
    (User.whenUserDeleted u ev).name = u.name ∧
    (User.whenUserDeleted u ev).createdBy = u.createdBy ∧
    (User.whenUserDeleted u ev).updatedBy = u.updatedBy ∧
    (User.whenUserDeleted u ev).deletedBy = u.deletedBy := by
  simp [User.whenUserDeleted]

lemma when_ok_events (u : User) (ev : DomainEvent) (u1 : User)
    (h : User.when u ev = .ok u1) : u1.domainEvents = u.domainEvents := by
  unfold User.when at h
  split_ifs at h
  · simp only [Except.ok.injEq] at h
    rw [← h]; exact (whenUserCreated_frame u ev).1
  · simp only [Except.ok.injEq] at h
    rw [← h]; exact (whenUserUpdated_frame u ev).1
  · simp only [Except.ok.injEq] at h
    rw [← h]; exact (whenUserDeleted_frame u ev).1

/-! ## C7 — replay and validation -/

/-- A persisted creation event whose payload carries a malformed email. -/
def badCreationEvent : DomainEvent :=
  UserCreatedEvent.make "u1" { email := some "not-an-email", name := some "Ann" } none 0

/-- Counterexample to C7 as stated: replaying a stream whose first event holds
a malformed email raises a `ValidationError` — `fromCreationEvent` funnels the
first event's payload through the validating `User` constructor, so replay does
re-validate the creation data. -/
theorem replay_validates_creation_cex :
    User.replayEvents [badCreationEvent] = .error (.validation "Invalid email format") := by
  rfl

/-- C7 amended: replay applies events only through the `when` state-transition
handler and `applyEvent`: a successfully rebuilt aggregate has an empty
uncommitted buffer (part 1); the `when` handler never appends to the buffer
(part 2) and can only fail with the unknown-event-type error, never a
`ValidationError` (part 3) — so events after the first are never re-validated.
The exception forced by the counterexample: the first event is funnelled
through the validating constructor, so malformed creation payloads do raise
`ValidationError`. -/
theorem replay_never_appends_never_revalidates :
    (∀ (events : List DomainEvent) (u : User),
       User.replayEvents events = .ok u → u.domainEvents = []) ∧
    (∀ (u : User) (ev : DomainEvent) (u1 : User),
       User.when u ev = .ok u1 → u1.domainEvents = u.domainEvents) ∧
    (∀ (u : User) (ev : DomainEvent) (e : UError),
       User.when u ev = .error e → e = .unknownEventType ev.eventType) := by
  refine ⟨?_, when_ok_events, ?_⟩
  · intro events u h
    rcases events with _ | ⟨first, rest⟩
    · simp [User.replayEvents] at h
    · simp only [User.replayEvents] at h
      rcases hc : User.fromCreationEvent first with e0 | u0
      · rw [hc] at h; cases h
      · rw [hc] at h
        have hu0 : u0.domainEvents = [] := by
          unfold User.fromCreationEvent at hc
          split at hc
          · cases hc
          · rw [make_ok_eq hc]
        have hrest : ∀ (l : List DomainEvent) (v : User), v.domainEvents = [] →
            User.replayRest v l = .ok u → u.domainEvents = [] := by
          intro l
          induction l with
          | nil =>
            intro v hv hrun
            simp only [User.replayRest, Except.ok.injEq] at hrun
            rw [← hrun]; exact hv
          | cons ev l ih =>
            intro v hv hrun
            simp only [User.replayRest, User.replayStep] at hrun
            rcases hw : User.when v ev with e1 | v1
            · rw [hw] at hrun; cases hrun
            · rw [hw] at hrun
              exact ih (v1.applyEvent ev)
                (by simp [User.applyEvent, when_ok_events v ev v1 hw, hv]) hrun
        exact hrest rest (u0.applyEvent first) (by simp [User.applyEvent, hu0]) h
  · intro u ev e h
    unfold User.when at h
    split_ifs at h
    simp only [Except.error.injEq] at h
    exact h.symm

/-- A well-formed two-event stream used to instantiate the amended C7. -/
def wellFormedStream : List DomainEvent :=
  [UserCreatedEvent.make "u1" { email := some "a@x.com", name := some "Ann" } none 0,
   UserUpdatedEvent.make "u1" { name := some "Anna", previousName := some "Ann" } none 1]

/-- The user rebuilt from `wellFormedStream`. -/
def replayedUser : User :=
  { id := "u1", createdAt := 0, updatedAt := 1, email := some "a@x.com",
    name := some "Anna", deletedAt := none, createdBy := none, updatedBy := none,
    deletedBy := none, version := 2, domainEvents := [] }

/-- Witness for the amended C7: a successful replay of a concrete two-event
stream ends with an empty uncommitted buffer even though two events were
applied. -/
theorem replay_never_appends_never_revalidates_witness :
    User.replayEvents wellFormedStream = .ok replayedUser ∧ replayedUser.domainEvents = [] :=
  ⟨by rfl, replay_never_appends_never_revalidates.1 wellFormedStream replayedUser (by rfl)⟩

/-! ## C2 — the write-path transaction boundary is not atomic -/

/-- C2 (refuted — code bug): running the create use case on an empty database
with the outbox insert failing (the "transaction fails after the event-store
append but before the outbox save" scenario) surfaces the failure, yet the
event-log row and the snapshot row stay committed while the outbox stays
empty.  `PrismaUnitOfWork.execute` passes a callback that ignores the `tx`
client, and every repository writes through the global client, so the
surrounding `$transaction` holds no writes and its rollback restores
nothing — "event appended" and "outbox entry created" do not stand or fall
together. -/
theorem createUser_outbox_failure_not_atomic :
    (createUserRun DB.empty "a@x.com" "Ann" "u1" 0 none "ob1" true).1 =
        .error (.generic "outbox insert failed") ∧
    (createUserRun DB.empty "a@x.com" "Ann" "u1" 0 none "ob1" true).2.outbox = [] ∧
    ((createUserRun DB.empty "a@x.com" "Ann" "u1" 0 none "ob1" true).2.eventLog.map
        fun r => (r.aggregateId, r.eventType, r.eventVersion)) = [("u1", "UserCreated", 1)] ∧
    ((createUserRun DB.empty "a@x.com" "Ann" "u1" 0 none "ob1" true).2.users.map
        fun r => r.id) = ["u1"] :=
  ⟨rfl, rfl, rfl, rfl⟩

/-! ## C4 — soft-delete and the two read paths -/

/-- Create–save–delete–save pipeline producing a soft-deleted aggregate whose
events are in the log: `User.create "u1" 0 "a@x.com" "Ann"`, repository save,
`delete` at time 5, repository save. -/
def deletedUserDB : DB :=
  match User.create "u1" 0 "a@x.com" "Ann" none none with
  | .error _ => DB.empty
  | .ok u0 =>
    match saveRepo DB.empty u0 with
    | (.error _, _) => DB.empty
    | (.ok u1, db1) =>
      match saveRepo db1 (u1.delete none 5 none) with
      | (_, db2) => db2

/-- Counterexample to C4 as stated: after a successful delete, `findById` does
NOT return null — the event-sourced path replays the stream and returns the
soft-deleted aggregate (`isSome`, with `deletedAt` set); only the snapshot
fallback filters `deletedAt: null`. -/
theorem findById_after_delete_cex :
    (findByIdRepo deletedUserDB "u1").map (fun o => o.isSome) = .ok true ∧
    (findByIdRepo deletedUserDB "u1").map (fun o => o.map fun u => u.deletedAt) =
      .ok (some (some 5)) := by
  exact ⟨rfl, rfl⟩

/-- C4 amended: `findById` performs no soft-delete filtering whenever the
aggregate has events — it returns exactly the replay result (part 1); on the
concrete deleted aggregate it returns the soft-deleted user rather than null
(part 2), while `getUserHistory` still returns the full stream, the "Deleted"
event included (part 3). -/
theorem findById_softdelete_amended :
    (∀ (db : DB) (id : String) (stream : EventStream),
       getSnapshot db.eventLog id = some stream →
       findByIdRepo db id =
         (match User.replayEvents stream.events with
          | .error e => .error e
          | .ok u => .ok (some u))) ∧
    ((findByIdRepo deletedUserDB "u1").map (fun o => o.map fun u => u.isDeleted) =
       .ok (some true)) ∧
    ((getUserHistory deletedUserDB "u1").map fun h => (h.eventType, h.version)) =
       [("UserCreated", 1), ("UserDeleted", 2)] := by
  refine ⟨?_, rfl, rfl⟩
  intro db id stream hs
  simp only [findByIdRepo, hs]

/-- The event stream stored for the deleted aggregate of `deletedUserDB`. -/
def deletedUserStream : EventStream :=
  (getSnapshot deletedUserDB.eventLog "u1").getD
    { aggregateId := "", events := [], version := 0 }

/-- Witness for the amended C4 at the concrete deleted aggregate. -/
theorem findById_softdelete_amended_witness :
    findByIdRepo deletedUserDB "u1" =
      (match User.replayEvents deletedUserStream.events with
       | .error e => .error e
       | .ok u => .ok (some u)) :=
  findById_softdelete_amended.1 deletedUserDB "u1" deletedUserStream (by rfl)

/-! ## C6 — pagination and the unfiltered total -/

lemma mem_insertByCreatedDesc {x r : UserRow} {l : List UserRow} :
    x ∈ insertByCreatedDesc r l ↔ x = r ∨ x ∈ l := by
  induction l with
  | nil => simp [insertByCreatedDesc]
  | cons y ys ih =>
    by_cases hc : y.createdAt < r.createdAt
    · simp [insertByCreatedDesc, hc]
    · simp [insertByCreatedDesc, hc, ih]
      tauto

lemma mem_sortByCreatedDesc {x : UserRow} {l : List UserRow} :
    x ∈ sortByCreatedDesc l ↔ x ∈ l := by
  induction l with
  | nil => simp [sortByCreatedDesc]
  | cons y ys ih =>
    show x ∈ insertByCreatedDesc y (sortByCreatedDesc ys) ↔ _
    rw [mem_insertByCreatedDesc]
    simp [ih, eq_comm]

lemma pairwise_insertByCreatedDesc (r : UserRow) (l : List UserRow)
    (h : l.Pairwise fun a b => b.createdAt ≤ a.createdAt) :
    (insertByCreatedDesc r l).Pairwise fun a b => b.createdAt ≤ a.createdAt := by
  induction l with
  | nil => simp [insertByCreatedDesc]
  | cons y ys ih =>
    rcases h with _ | ⟨hy, hys⟩
    by_cases hc : y.createdAt < r.createdAt
    · simp only [insertByCreatedDesc, if_pos hc]
      refine List.Pairwise.cons ?_ (List.Pairwise.cons hy hys)
      intro z hz
      rcases List.mem_cons.mp hz with rfl | hz
      · exact Nat.le_of_lt hc
      · exact Nat.le_trans (hy z hz) (Nat.le_of_lt hc)
    · simp only [insertByCreatedDesc, if_neg hc]
      refine List.Pairwise.cons ?_ (ih hys)
      intro z hz
      rcases mem_insertByCreatedDesc.mp hz with rfl | hz
      · exact Nat.le_of_not_lt hc
      · exact hy z hz

lemma pairwise_sortByCreatedDesc (l : List UserRow) :
    (sortByCreatedDesc l).Pairwise fun a b => b.createdAt ≤ a.createdAt := by
  induction l with
  | nil => exact List.Pairwise.nil
  | cons y ys ih => exact pairwise_insertByCreatedDesc y (sortByCreatedDesc ys) ih

lemma usersFromRows_fields (rows : List UserRow) (us : List User)
    (h : usersFromRows rows = .ok us) :
    us.map (fun u => (u.id, u.deletedAt, u.createdAt)) =
      rows.map (fun r => (r.id, r.deletedAt, r.createdAt)) := by
  induction rows generalizing us with
  | nil =>
    simp only [usersFromRows, Except.ok.injEq] at h
    rw [← h]; rfl
  | cons r rs ih =>
    simp only [usersFromRows] at h
    rcases h1 : userFromRow r with e | u
    · rw [h1] at h; cases h
    · rw [h1] at h
      rcases h2 : usersFromRows rs with e | vs
      · rw [h2] at h; cases h
      · rw [h2] at h
        simp only [Except.ok.injEq] at h
        rw [← h]
        simp only [List.map_cons, ih vs h2]
        have := make_ok_eq h1
        rw [this]

/-- Live and soft-deleted snapshot rows for the C6 scenario. -/
def liveRow : UserRow :=
  { id := "u1", email := some "a@x.com", name := some "Ann", version := 1,
    createdAt := 1, updatedAt := 1, deletedAt := none, createdBy := none,
    updatedBy := none, deletedBy := none }

/-- A soft-deleted snapshot row (deleted at time 3). -/
def deletedRow : UserRow :=
  { id := "u2", email := some "b@x.com", name := some "Bob", version := 2,
    createdAt := 2, updatedAt := 3, deletedAt := some 3, createdBy := none,
    updatedBy := none, deletedBy := none }

/-- Snapshot table with one live and one soft-deleted aggregate. -/
def mixedDB : DB := { eventLog := [], users := [liveRow, deletedRow], outbox := [] }

/-- Counterexample to C6 as stated: with one live and one soft-deleted row,
`findMany` returns only the live item but reports `total = 2` — the
`count()` call has no `where` filter, so the total does NOT exclude
soft-deleted aggregates (the live count is 1). -/
theorem findMany_total_includes_deleted_cex :
    (findManyRepo mixedDB 1 10).map (fun p => (p.1.map fun u => u.id, p.2)) =
      .ok (["u1"], 2) ∧
    (mixedDB.users.filter fun r => r.deletedAt = none).length = 1 := by
  exact ⟨rfl, rfl⟩

/-- C6 amended: `findMany` returns the requested 1-based page of the
soft-delete-filtered snapshot rows in descending creation order (items are all
live and sorted), but the accompanying total is the count of ALL snapshot rows,
soft-deleted ones included. -/
theorem findMany_amended (db : DB) (page limit : Nat) (us : List User)
    (hus : usersFromRows
        (((sortByCreatedDesc (db.users.filter fun r => r.deletedAt = none)).drop
          ((page - 1) * limit)).take limit) = .ok us) :
    findManyRepo db page limit = .ok (us, db.users.length) ∧
    us.map (fun u => u.id) =
      ((((sortByCreatedDesc (db.users.filter fun r => r.deletedAt = none)).drop
        ((page - 1) * limit)).take limit).map fun r => r.id) ∧
    (∀ u ∈ us, u.deletedAt = none) ∧
    (us.map fun u => u.createdAt).Pairwise (fun a b => b ≤ a) := by
  set pageRows := (((sortByCreatedDesc (db.users.filter fun r => r.deletedAt = none)).drop
    ((page - 1) * limit)).take limit) with hpageRows
  have hfields := usersFromRows_fields pageRows us hus
  have hids : us.map (fun u => u.id) = pageRows.map (fun r => r.id) := by
    have := congrArg (List.map fun p : String × Option Nat × Nat => p.1) hfields
    simpa [List.map_map, Function.comp] using this
  have hdel : us.map (fun u => u.deletedAt) = pageRows.map (fun r => r.deletedAt) := by
    have := congrArg (List.map fun p : String × Option Nat × Nat => p.2.1) hfields
    simpa [List.map_map, Function.comp] using this
  have hcre : us.map (fun u => u.createdAt) = pageRows.map (fun r => r.createdAt) := by
    have := congrArg (List.map fun p : String × Option Nat × Nat => p.2.2) hfields
    simpa [List.map_map, Function.comp] using this
  refine ⟨?_, hids, ?_, ?_⟩
  · simp only [findManyRepo, ← hpageRows, hus]
  · intro u hu
    have hmem : u.deletedAt ∈ pageRows.map (fun r => r.deletedAt) := by
      rw [← hdel]; exact List.mem_map_of_mem _ hu
    obtain ⟨r, hr, hrd⟩ := List.mem_map.mp hmem
    have hrlive : r ∈ db.users.filter fun q => q.deletedAt = none := by
      exact mem_sortByCreatedDesc.mp
        (List.mem_of_mem_drop (List.mem_of_mem_take hr))
    have := (List.mem_filter.mp hrlive).2
    rw [← hrd]
    exact of_decide_eq_true this
  · have hsorted : pageRows.Pairwise (fun a b => b.createdAt ≤ a.createdAt) :=
      List.Pairwise.sublist ((List.take_sublist _ _).trans (List.drop_sublist _ _))
        (pairwise_sortByCreatedDesc (db.users.filter fun r => r.deletedAt = none))
    rw [hcre]
    exact List.pairwise_map.mpr hsorted

/-- The single live user of `mixedDB` as rebuilt by `findMany`. -/
def livePageUser : User :=
  { id := "u1", createdAt := 1, updatedAt := 1, email := some "a@x.com",
    name := some "Ann", deletedAt := none, createdBy := none, updatedBy := none,
    deletedBy := none, version := 0, domainEvents := [] }

/-- Witness for the amended C6: the concrete mixed table yields the one live
item and the unfiltered total of 2. -/
theorem findMany_amended_witness :
    findManyRepo mixedDB 1 10 = .ok ([livePageUser], mixedDB.users.length) :=
  (findMany_amended mixedDB 1 10 [livePageUser] (by rfl)).1

/-! ## C3 — replay fidelity -/

/-- One public mutation call on the aggregate (the arguments of
`updateName` / `updateEmail` / `delete`, with the clock passed explicitly). -/
inductive MutOp where
  | updName (newName : String) (actor : Option UserInfo) (now : Nat) (md : Option TraceMetadata)
  | updEmail (newEmail : String) (actor : Option UserInfo) (now : Nat) (md : Option TraceMetadata)
  | del (actor : Option UserInfo) (now : Nat) (md : Option TraceMetadata)

/-- Dispatch one mutation call. -/
def applyMutOp (u : User) : MutOp → Except UError User
  | .updName s a now md => u.updateName s a now md
  | .updEmail s a now md => u.updateEmail s a now md
  | .del a now md => .ok (u.delete a now md)

/-- Run a sequence of mutation calls, stopping at the first failure. -/
def runMutOps (u : User) : List MutOp → Except UError User
  | [] => .ok u
  | op :: ops =>
    match applyMutOp u op with
    | .error e => .error e
    | .ok u1 => runMutOps u1 ops

/-- The replay of the uncommitted event sequence of `u` succeeds and agrees
with `u` on identity, timestamps, business fields, version and `createdBy`;
the replayed actor stamps `updatedBy`/`deletedBy` are always null. -/
def ReplayAgrees (u : User) : Prop :=
  ∃ ur, User.replayEvents u.domainEvents = .ok ur ∧
    ur.id = u.id ∧ ur.createdAt = u.createdAt ∧ ur.updatedAt = u.updatedAt ∧
    ur.email = u.email ∧ ur.name = u.name ∧ ur.deletedAt = u.deletedAt ∧
    ur.version = u.version ∧ ur.createdBy = u.createdBy ∧
    ur.updatedBy = none ∧ ur.deletedBy = none

lemma validateEmail_ne_empty {s : String} (h : validateEmail s = true) : s ≠ "" := by
  intro he
  subst he
  exact absurd h (by decide)

lemma validateName_ne_empty {s : String} (h : validateName s = true) : s ≠ "" := by
  intro he
  subst he
  exact absurd h (by decide)

lemma jsOrStr_some {s : String} (d : String) (h : s ≠ "") : jsOrStr (some s) d = s := by
  simp [jsOrStr, h]

lemma make_ok_valid {id : String} {email name : Option String} {cAt uAt : Nat}
    {dAt : Option Nat} {cBy uBy dBy : Option UserInfo} {u : User}
    (h : User.make id email name cAt uAt dAt cBy uBy dBy = .ok u) :
    (match email with | some e => validateEmail e | none => false) = true ∧
    (match name with | some n => validateName n | none => false) = true := by
  rcases email with _ | e
  · exfalso
    simp [User.make] at h
  · rcases name with _ | n
    · exfalso
      simp only [User.make] at h
      split at h
      · cases h
      · cases h
    · simp only [User.make] at h
      cases he : validateEmail e with
      | false => exfalso; simp [he] at h
      | true =>
        cases hn : validateName n with
        | false => exfalso; simp [he, hn] at h
        | true => exact ⟨he, hn⟩

lemma make_ok_of_valid {id : String} {email name : Option String} {cAt uAt : Nat}
    {dAt : Option Nat} {cBy uBy dBy : Option UserInfo}
    (he : (match email with | some e => validateEmail e | none => false) = true)
    (hn : (match name with | some n => validateName n | none => false) = true) :
    User.make id email name cAt uAt dAt cBy uBy dBy =
      .ok { id := id, createdAt := cAt, updatedAt := uAt, email := email,
            name := name, deletedAt := dAt, createdBy := cBy, updatedBy := uBy,
            deletedBy := dBy, version := 0, domainEvents := [] } := by
  rcases name with _ | n
  · simp at hn
  · simp only at hn
    simp [User.make, he, hn]

lemma replayStep_updated (u : User) (aggId : String) (d : EventData)
    (md : Option TraceMetadata) (now : Nat) :
    u.replayStep (UserUpdatedEvent.make aggId d md now) =
      .ok ((User.whenUserUpdated u (UserUpdatedEvent.make aggId d md now)).applyEvent
        (UserUpdatedEvent.make aggId d md now)) := by
  have h1 : (("UserUpdated" : String) = "UserCreated") = False := by simp
  simp [User.replayStep, User.when, UserUpdatedEvent.make, BaseDomainEvent.make, h1]

lemma replayStep_deleted (u : User) (aggId : String) (d : EventData)
    (md : Option TraceMetadata) (now : Nat) :
    u.replayStep (UserDeletedEvent.make aggId d md now) =
      .ok ((User.whenUserDeleted u (UserDeletedEvent.make aggId d md now)).applyEvent
        (UserDeletedEvent.make aggId d md now)) := by
  have h1 : (("UserDeleted" : String) = "UserCreated") = False := by simp
  have h2 : (("UserDeleted" : String) = "UserUpdated") = False := by simp
  simp [User.replayStep, User.when, UserDeletedEvent.make, BaseDomainEvent.make, h1, h2]

lemma replayRest_append (l : List DomainEvent) (ev : DomainEvent) :
    ∀ (v ur : User), User.replayRest v l = .ok ur →
      User.replayRest v (l ++ [ev]) = ur.replayStep ev := by
  induction l with
  | nil =>
    intro v ur h
    simp only [User.replayRest, Except.ok.injEq] at h
    subst h
    show (match v.replayStep ev with
          | .error e => .error e
          | .ok u1 => User.replayRest u1 []) = v.replayStep ev
    rcases hs : v.replayStep ev with e | u1
    · rfl
    · rfl
  | cons d l ih =>
    intro v ur h
    simp only [User.replayRest] at h ⊢
    rcases hs : v.replayStep d with e | v1
    · rw [hs] at h; cases h
    · rw [hs] at h
      exact ih v1 ur h

lemma replayEvents_append (evs : List DomainEvent) (ev : DomainEvent) (ur : User)
    (h : User.replayEvents evs = .ok ur) :
    User.replayEvents (evs ++ [ev]) = ur.replayStep ev := by
  rcases evs with _ | ⟨first, rest⟩
  · cases h
  · simp only [User.replayEvents] at h
    show (match User.fromCreationEvent first with
      | .error e => .error e
      | .ok u0 => (u0.applyEvent first).replayRest (rest ++ [ev])) = ur.replayStep ev
    rcases hc : User.fromCreationEvent first with e | u0
    · rw [hc] at h; cases h
    · rw [hc] at h
      exact replayRest_append rest ev (u0.applyEvent first) ur h

lemma updateName_ok_cases {u : User} {s : String} {b : Option UserInfo} {now : Nat}
    {md : Option TraceMetadata} {u1 : User}
    (h : User.updateName u s b now md = .ok u1) :
    u1 = u ∨
    u1 = ({ u with name := some (jsTrim s), updatedBy := b }).addDomainEvent
      (UserUpdatedEvent.make u.id
        { name := some (jsTrim s), previousName := u.name, updatedBy := b } md now) now := by
  simp only [User.updateName] at h
  by_cases h1 : u.isDeleted = true
  · rw [if_pos h1] at h; cases h
  · rw [if_neg h1] at h
    by_cases h2 : (!validateName s) = true
    · rw [if_pos h2] at h; cases h
    · rw [if_neg h2] at h
      by_cases h3 : some (jsTrim s) = u.name
      · rw [if_pos h3] at h
        simp only [Except.ok.injEq] at h
        exact Or.inl h.symm
      · rw [if_neg h3] at h
        simp only [Except.ok.injEq] at h
        exact Or.inr h.symm

lemma updateEmail_ok_cases {u : User} {s : String} {b : Option UserInfo} {now : Nat}
    {md : Option TraceMetadata} {u1 : User}
    (h : User.updateEmail u s b now md = .ok u1) :
    u1 = u ∨
    u1 = ({ u with email := some (jsTrim (jsToLower s)), updatedBy := b }).addDomainEvent
      (UserUpdatedEvent.make u.id
        { email := some (jsTrim (jsToLower s)), previousEmail := u.email,
          updatedBy := b } md now) now := by
  simp only [User.updateEmail] at h
  by_cases h1 : u.isDeleted = true
  · rw [if_pos h1] at h; cases h
  · rw [if_neg h1] at h
    by_cases h2 : (!validateEmail s) = true
    · rw [if_pos h2] at h; cases h
    · rw [if_neg h2] at h
      by_cases h3 : some (jsTrim (jsToLower s)) = u.email
      · rw [if_pos h3] at h
        simp only [Except.ok.injEq] at h
        exact Or.inl h.symm
      · rw [if_neg h3] at h
        simp only [Except.ok.injEq] at h
        exact Or.inr h.symm

lemma delete_cases (u : User) (b : Option UserInfo) (now : Nat) (md : Option TraceMetadata) :
    u.delete b now md = u ∨
    u.delete b now md =
      ({ u with deletedAt := some now, deletedBy := b, updatedAt := now }).addDomainEvent
        (UserDeletedEvent.make u.id
          { email := u.email, name := u.name, deletedAt := some now,
            deletedBy := b } md now) now := by
  by_cases h : u.isDeleted = true
  · exact Or.inl (by simp [User.delete, h])
  · exact Or.inr (by simp [User.delete, h])

lemma create_replayAgrees {id : String} {now : Nat} {email name : String}
    {cBy : Option UserInfo} {md : Option TraceMetadata} {u0 : User}
    (h : User.create id now email name cBy md = .ok u0) : ReplayAgrees u0 := by
  unfold User.create at h
  rcases hm : User.make id (some (jsTrim (jsToLower email))) (some (jsTrim name))
      now now none cBy none none with e | base
  · rw [hm] at h; cases h
  · rw [hm] at h
    simp only [Except.ok.injEq] at h
    obtain ⟨hev, hnv⟩ := make_ok_valid hm
    have hev : validateEmail (jsTrim (jsToLower email)) = true := hev
    have hnv : validateName (jsTrim name) = true := hnv
    have hbase := make_ok_eq hm
    subst hbase
    subst h
    refine ⟨{ id := id, createdAt := now, updatedAt := now,
              email := some (jsTrim (jsToLower email)), name := some (jsTrim name),
              deletedAt := none, createdBy := cBy, updatedBy := none,
              deletedBy := none, version := 1, domainEvents := [] },
            ?_, rfl, rfl, rfl, rfl, rfl, rfl, rfl, rfl, rfl, rfl⟩
    have hje := jsOrStr_some "unknown@example.com" (validateEmail_ne_empty hev)
    have hjn := jsOrStr_some "Unknown User" (validateName_ne_empty hnv)
    have hfc : User.fromCreationEvent
        (UserCreatedEvent.make id
          { email := some (jsTrim (jsToLower email)), name := some (jsTrim name),
            createdBy := cBy } md now) =
        .ok { id := id, createdAt := now, updatedAt := now,
              email := some (jsTrim (jsToLower email)), name := some (jsTrim name),
              deletedAt := none, createdBy := cBy, updatedBy := none,
              deletedBy := none, version := 0, domainEvents := [] } := by
      show (if ("UserCreated" : String) ≠ "UserCreated" then
          Except.error (UError.generic "Invalid creation event type for User aggregate")
        else User.make id (some (jsOrStr (some (jsTrim (jsToLower email))) "unknown@example.com"))
          (some (jsOrStr (some (jsTrim name)) "Unknown User")) now now none cBy none none) = _
      rw [if_neg (fun hh => hh rfl), hje, hjn]
      exact make_ok_of_valid hev hnv
    show User.replayEvents [UserCreatedEvent.make id
        { email := some (jsTrim (jsToLower email)), name := some (jsTrim name),
          createdBy := cBy } md now] = _
    simp only [User.replayEvents, hfc]
    rfl

lemma replayAgrees_step {u u1 : User} {op : MutOp}
    (hr : ReplayAgrees u) (hs : applyMutOp u op = .ok u1) : ReplayAgrees u1 := by
  obtain ⟨ur, hre, hid, hca, hua, hem, hnm, hda, hv, hcb, hub, hdb⟩ := hr
  cases op with
  | updName s b now md =>
    rcases updateName_ok_cases hs with rfl | hform
    · exact ⟨ur, hre, hid, hca, hua, hem, hnm, hda, hv, hcb, hub, hdb⟩
    · subst hform
      refine ⟨(User.whenUserUpdated ur (UserUpdatedEvent.make u.id
          { name := some (jsTrim s), previousName := u.name, updatedBy := b } md now)).applyEvent
            (UserUpdatedEvent.make u.id
              { name := some (jsTrim s), previousName := u.name, updatedBy := b } md now),
          ?_, hid, hca, rfl, hem, rfl, hda, congrArg (fun x => x + 1) hv, hcb, hub, hdb⟩
      show User.replayEvents (u.domainEvents ++ [_]) = _
      rw [replayEvents_append u.domainEvents _ ur hre, replayStep_updated]
  | updEmail s b now md =>
    rcases updateEmail_ok_cases hs with rfl | hform
    · exact ⟨ur, hre, hid, hca, hua, hem, hnm, hda, hv, hcb, hub, hdb⟩
    · subst hform
      refine ⟨(User.whenUserUpdated ur (UserUpdatedEvent.make u.id
          { email := some (jsTrim (jsToLower s)), previousEmail := u.email,
            updatedBy := b } md now)).applyEvent
            (UserUpdatedEvent.make u.id
              { email := some (jsTrim (jsToLower s)), previousEmail := u.email,
                updatedBy := b } md now),
          ?_, hid, hca, rfl, rfl, hnm, hda, congrArg (fun x => x + 1) hv, hcb, hub, hdb⟩
      show User.replayEvents (u.domainEvents ++ [_]) = _
      rw [replayEvents_append u.domainEvents _ ur hre, replayStep_updated]
  | del b now md =>
    simp only [applyMutOp, Except.ok.injEq] at hs
    rcases delete_cases u b now md with hdel | hdel
    · rw [hdel] at hs
      subst hs
      exact ⟨ur, hre, hid, hca, hua, hem, hnm, hda, hv, hcb, hub, hdb⟩
    · rw [hdel] at hs
      subst hs
      refine ⟨(User.whenUserDeleted ur (UserDeletedEvent.make u.id
          { email := u.email, name := u.name, deletedAt := some now,
            deletedBy := b } md now)).applyEvent
            (UserDeletedEvent.make u.id
              { email := u.email, name := u.name, deletedAt := some now,
                deletedBy := b } md now),
          ?_, hid, hca, rfl, hem, hnm, rfl, congrArg (fun x => x + 1) hv, hcb, hub, hdb⟩
      show User.replayEvents (u.domainEvents ++ [_]) = _
      rw [replayEvents_append u.domainEvents _ ur hre, replayStep_deleted]

/-- C3 amended: for every aggregate produced by a creation followed by any
sequence of successful mutations, replaying its event sequence succeeds and
agrees with the in-memory state on id, createdAt, updatedAt, email, name,
deletedAt, version and createdBy.  The replayed actor stamps `updatedBy` and
`deletedBy`, however, are always null — the `when` handlers never restore them,
so they differ from the in-memory state whenever a mutation carried an actor
(which is the counterexample to the claim as stated). -/
theorem replay_matches_inmemory_amended (id : String) (now : Nat) (email name : String)
    (createdBy : Option UserInfo) (md : Option TraceMetadata) (ops : List MutOp)
    (u0 u : User)
    (hcreate : User.create id now email name createdBy md = .ok u0)
    (hrun : runMutOps u0 ops = .ok u) :
    ∃ ur, User.replayEvents u.domainEvents = .ok ur ∧
      ur.id = u.id ∧ ur.createdAt = u.createdAt ∧ ur.updatedAt = u.updatedAt ∧
      ur.email = u.email ∧ ur.name = u.name ∧ ur.deletedAt = u.deletedAt ∧
      ur.version = u.version ∧ ur.createdBy = u.createdBy ∧
      ur.updatedBy = none ∧ ur.deletedBy = none := by
  have hrec : ∀ (l : List MutOp) (v : User), ReplayAgrees v →
      runMutOps v l = .ok u → ReplayAgrees u := by
    intro l
    induction l with
    | nil =>
      intro v hv hr
      simp only [runMutOps, Except.ok.injEq] at hr
      subst hr
      exact hv
    | cons op opsTail ih =>
      intro v hv hr
      simp only [runMutOps] at hr
      rcases hstep : applyMutOp v op with e | v1
      · rw [hstep] at hr; cases hr
      · rw [hstep] at hr
        exact ih v1 (replayAgrees_step hv hstep) hr
  exact hrec ops u0 (create_replayAgrees hcreate) hrun

/-- The actor performing the mutations of the concrete C3 scenario. -/
def adminActor : UserInfo := { uid := "adm", uname := "Admin", uemail := "admin@x.com" }

/-- In-memory state and replayed state of the concrete scenario
`create("a@x.com", "Ann")` then `updateName("Anna", adminActor)`
(`none` whenever something failed, which the theorems below rule out). -/
def fidelityPair : Option (User × User) :=
  match User.create "u1" 0 "a@x.com" "Ann" none none with
  | .error _ => none
  | .ok u0 =>
    match u0.updateName "Anna" (some adminActor) 1 none with
    | .error _ => none
    | .ok u1 =>
      match User.replayEvents u1.domainEvents with
      | .error _ => none
      | .ok ur => some (u1, ur)

/-- Counterexample to C3 as stated: after `updateName` performed by
`adminActor`, the in-memory `updatedBy` is the actor but the replayed
`updatedBy` is null — the states are not field-for-field identical. -/
theorem replay_fidelity_cex :
    fidelityPair.map (fun p => (p.1.updatedBy, p.2.updatedBy)) =
      some (some adminActor, none) := by
  rfl

/-- The user of the concrete C3 scenario right after creation. -/
def fidelityU0 : User :=
  { id := "u1", createdAt := 0, updatedAt := 0, email := some "a@x.com",
    name := some "Ann", deletedAt := none, createdBy := none, updatedBy := none,
    deletedBy := none, version := 1,
    domainEvents := [UserCreatedEvent.make "u1"
      { email := some "a@x.com", name := some "Ann" } none 0] }

/-- The user of the concrete C3 scenario after `updateName("Anna", adminActor)`. -/
def fidelityU1 : User :=
  { id := "u1", createdAt := 0, updatedAt := 1, email := some "a@x.com",
    name := some "Anna", deletedAt := none, createdBy := none,
    updatedBy := some adminActor, deletedBy := none, version := 2,
    domainEvents := [UserCreatedEvent.make "u1"
      { email := some "a@x.com", name := some "Ann" } none 0,
      UserUpdatedEvent.make "u1"
        { name := some "Anna", previousName := some "Ann",
          updatedBy := some adminActor } none 1] }

/-- The replay of `fidelityU1`'s events. -/
def fidelityReplayed : User :=
  { id := "u1", createdAt := 0, updatedAt := 1, email := some "a@x.com",
    name := some "Anna", deletedAt := none, createdBy := none, updatedBy := none,
    deletedBy := none, version := 2, domainEvents := [] }

/-- Witness for the amended C3 at the concrete scenario: the replayed state
agrees with the in-memory state on name, version and createdBy, and its
`updatedBy` is null. -/
theorem replay_matches_inmemory_amended_witness :
    fidelityReplayed.name = fidelityU1.name ∧
    fidelityReplayed.version = fidelityU1.version ∧
    fidelityReplayed.createdBy = fidelityU1.createdBy ∧
    fidelityReplayed.updatedBy = none := by
  obtain ⟨ur, hre, hid, hca, hua, hem, hnm, hda, hv, hcb, hub, hdb⟩ :=
    replay_matches_inmemory_amended "u1" 0 "a@x.com" "Ann" none none
      [MutOp.updName "Anna" (some adminActor) 1 none] fidelityU0 fidelityU1
      (by rfl) (by rfl)
  have hconc : User.replayEvents fidelityU1.domainEvents = .ok fidelityReplayed := by rfl
  rw [hre] at hconc
  simp only [Except.ok.injEq] at hconc
  rw [← hconc]
  exact ⟨hnm, hv, hcb, hub⟩

/-! ## C5 — version monotonicity and gapless storage -/

/-- One step of a write scenario: a public mutation or a repository save. -/
inductive SysOp where
  | mutate (op : MutOp)
  | saveOp

/-- Run mutations and saves against the aggregate and the shared database,
stopping at the first failure. -/
def runSysOps (u : User) (db : DB) : List SysOp → Except UError (User × DB)
  | [] => .ok (u, db)
  | .mutate op :: ops =>
    match applyMutOp u op with
    | .error e => .error e
    | .ok u1 => runSysOps u1 db ops
  | .saveOp :: ops =>
    match saveRepo db u with
    | (.error e, _) => .error e
    | (.ok u1, db1) => runSysOps u1 db1 ops

lemma saveEvents_ok_shape {log : List EventRecord} {aggId : String}
    {events : List DomainEvent} {expected : Nat} {log1 : List EventRecord}
    (hne : events ≠ []) (h : saveEvents log aggId events expected = (.ok (), log1)) :
    currentVersion log aggId = expected ∧
    log1 = log ++ events.enum.map (toEventRecord expected) := by
  have hlen : events.length ≠ 0 := fun hz => hne (List.length_eq_zero.mp hz)
  simp only [saveEvents, if_neg hlen] at h
  by_cases hc : currentVersion log aggId ≠ expected
  · rw [if_pos hc] at h
    cases h
  · rw [if_neg hc] at h
    simp only [Prod.mk.injEq] at h
    exact ⟨Classical.byContradiction fun hx => hc hx, h.2.symm⟩

lemma saveRepo_ok_write {u u1 : User} {db db1 : DB}
    (hs : saveRepo db u = (.ok u1, db1)) :
    saveRepo.saveRepoWrite db u = (.ok u1, db1) := by
  unfold saveRepo at hs
  rcases hbe : findByEmailRepo db u.email with e | exu
  · rw [hbe] at hs; simp at hs
  · rw [hbe] at hs
    rcases exu with _ | ex
    · exact hs
    · have hs2 : (if ex.id ≠ u.id then
          ((Except.error (UError.conflict "User with email already exists") :
            Except UError User), db)
        else saveRepo.saveRepoWrite db u) = (.ok u1, db1) := hs
      by_cases hid : ex.id ≠ u.id
      · rw [if_pos hid] at hs2; simp at hs2
      · rw [if_neg hid] at hs2; exact hs2

lemma saveRepoWrite_shape {u u1 : User} {db db1 : DB}
    (hs : saveRepo.saveRepoWrite db u = (.ok u1, db1)) :
    (u.domainEvents = [] ∧ u1 = u ∧
      db1 = { db with users := upsertUserRow db.users u }) ∨
    (u.domainEvents ≠ [] ∧
      currentVersion db.eventLog u.id = u.version - u.domainEvents.length ∧
      u1 = u.clearDomainEvents ∧
      db1 = { db with
        eventLog := db.eventLog ++ u.domainEvents.enum.map
          (toEventRecord (u.version - u.domainEvents.length)),
        users := upsertUserRow db.users u.clearDomainEvents }) := by
  unfold saveRepo.saveRepoWrite at hs
  by_cases hne : u.domainEvents.length > 0
  · rw [if_pos hne] at hs
    have hnil : u.domainEvents ≠ [] := by
      intro hz
      rw [hz] at hne
      simp at hne
    rcases hsv : saveEvents db.eventLog u.id u.domainEvents
        (u.version - u.domainEvents.length) with ⟨res, log1⟩
    rw [hsv] at hs
    rcases res with e | r0
    · simp at hs
    · obtain ⟨hcur, hlog⟩ := saveEvents_ok_shape hnil (by rw [hsv])
      simp only [Prod.mk.injEq, Except.ok.injEq] at hs
      refine Or.inr ⟨hnil, hcur, hs.1.symm, ?_⟩
      rw [← hs.2, hlog]
  · rw [if_neg hne] at hs
    simp only [Prod.mk.injEq, Except.ok.injEq] at hs
    have hz : u.domainEvents = [] := List.eq_nil_of_length_eq_zero (by omega)
    exact Or.inl ⟨hz, hs.1.symm, hs.2.symm⟩

/-- Invariant tying the aggregate to its stored stream: the stored versions of
the aggregate are exactly `1..k` in append order, the in-memory version counts
stored plus uncommitted events, and every buffered event targets the
aggregate. -/
def StreamInv (u : User) (db : DB) : Prop :=
  ((db.eventLog.filter fun r => r.aggregateId = u.id).map fun r => r.eventVersion) =
      List.range' 1 (db.eventLog.filter fun r => r.aggregateId = u.id).length ∧
  u.version = (db.eventLog.filter fun r => r.aggregateId = u.id).length +
      u.domainEvents.length ∧
  ∀ e ∈ u.domainEvents, e.aggregateId = u.id

lemma streamInv_mut {u u1 : User} {db : DB} {op : MutOp}
    (hI : StreamInv u db) (hs : applyMutOp u op = .ok u1) : StreamInv u1 db := by
  obtain ⟨h1, h2, h3⟩ := hI
  cases op with
  | updName s b now md =>
    rcases updateName_ok_cases hs with rfl | hform
    · exact ⟨h1, h2, h3⟩
    · subst hform
      refine ⟨h1, ?_, ?_⟩
      · simp only [User.addDomainEvent, List.length_append, List.length_singleton]
        omega
      · intro e he
        rcases List.mem_append.mp he with he | he
        · exact h3 e he
        · rw [List.mem_singleton.mp he]; rfl
  | updEmail s b now md =>
    rcases updateEmail_ok_cases hs with rfl | hform
    · exact ⟨h1, h2, h3⟩
    · subst hform
      refine ⟨h1, ?_, ?_⟩
      · simp only [User.addDomainEvent, List.length_append, List.length_singleton]
        omega
      · intro e he
        rcases List.mem_append.mp he with he | he
        · exact h3 e he
        · rw [List.mem_singleton.mp he]; rfl
  | del b now md =>
    simp only [applyMutOp, Except.ok.injEq] at hs
    rcases delete_cases u b now md with hdel | hdel
    · rw [hdel] at hs
      subst hs
      exact ⟨h1, h2, h3⟩
    · rw [hdel] at hs
      subst hs
      refine ⟨h1, ?_, ?_⟩
      · simp only [User.addDomainEvent, List.length_append, List.length_singleton]
        omega
      · intro e he
        rcases List.mem_append.mp he with he | he
        · exact h3 e he
        · rw [List.mem_singleton.mp he]; rfl

lemma streamInv_save {u u1 : User} {db db1 : DB}
    (hI : StreamInv u db) (hs : saveRepo db u = (.ok u1, db1)) : StreamInv u1 db1 := by
  obtain ⟨h1, h2, h3⟩ := hI
  rcases saveRepoWrite_shape (saveRepo_ok_write hs) with ⟨hz, hu1, hdb⟩ | ⟨hne, hcur, hu1, hdb⟩
  · subst hu1
    subst hdb
    exact ⟨h1, h2, h3⟩
  · subst hu1
    subst hdb
    have hvers : ((u.domainEvents.enum.map
          (toEventRecord (u.version - u.domainEvents.length))).map fun r => r.eventVersion) =
        List.range' (u.version - u.domainEvents.length + 1) u.domainEvents.length :=
      (enumFrom_toEventRecord (u.version - u.domainEvents.length) u.domainEvents 0).1
    have hagg : ((u.domainEvents.enum.map
          (toEventRecord (u.version - u.domainEvents.length))).map fun r => r.aggregateId) =
        u.domainEvents.map (fun e => e.aggregateId) :=
      (enumFrom_toEventRecord (u.version - u.domainEvents.length) u.domainEvents 0).2.2.2
    have hall : ∀ r ∈ u.domainEvents.enum.map
        (toEventRecord (u.version - u.domainEvents.length)), r.aggregateId = u.id := by
      intro r hr
      have hmem : r.aggregateId ∈ (u.domainEvents.enum.map
          (toEventRecord (u.version - u.domainEvents.length))).map (fun q => q.aggregateId) :=
        List.mem_map_of_mem _ hr
      rw [hagg] at hmem
      obtain ⟨e, he, heq⟩ := List.mem_map.mp hmem
      rw [← heq]
      exact h3 e he
    have hfilt : (u.domainEvents.enum.map
          (toEventRecord (u.version - u.domainEvents.length))).filter
        (fun r => r.aggregateId = u.id) = u.domainEvents.enum.map
          (toEventRecord (u.version - u.domainEvents.length)) := by
      apply List.filter_eq_self.mpr
      intro r hr
      exact decide_eq_true (hall r hr)
    have hlenrecs : (u.domainEvents.enum.map
        (toEventRecord (u.version - u.domainEvents.length))).length = u.domainEvents.length := by
      have hlen := congrArg List.length hvers
      rw [List.length_map, List.length_range'] at hlen
      exact hlen
    have hk : u.version - u.domainEvents.length =
        (db.eventLog.filter fun r => r.aggregateId = u.id).length := by omega
    refine ⟨?_, ?_, ?_⟩
    · simp only [User.clearDomainEvents]
      rw [List.filter_append, hfilt, List.map_append, hvers, h1, List.length_append, hlenrecs, hk]
      have hr := List.range'_append 1
        ((db.eventLog.filter fun r => r.aggregateId = u.id).length) u.domainEvents.length 1
      simp only [Nat.one_mul] at hr
      rw [Nat.add_comm 1 ((db.eventLog.filter fun r => r.aggregateId = u.id).length)] at hr
      rw [hr, Nat.add_comm u.domainEvents.length
        ((db.eventLog.filter fun r => r.aggregateId = u.id).length)]
    · simp only [User.clearDomainEvents]
      rw [List.filter_append, hfilt, List.length_append, hlenrecs]
      simp only [List.length_nil]
      omega
    · intro e he
      simp [User.clearDomainEvents] at he

/-- C5: creation yields version 1 with exactly one buffered event (part 1);
every successful mutation either leaves the aggregate untouched (a no-op) or
appends exactly one event and raises the version by exactly one, so after N
state-changing mutations the version is N (part 2); and for any run of
mutations and saves that succeeds, the in-memory version always counts stored
plus uncommitted events (part 3), and once the buffer is flushed the stored
stream for the aggregate is exactly `eventVersion 1..version` in order — no
gaps, no duplicates (part 4). -/
theorem version_monotonicity_gapless (id : String) (now : Nat) (email name : String)
    (createdBy : Option UserInfo) (md : Option TraceMetadata) (ops : List SysOp)
    (db0 : DB) (u0 u : User) (db : DB)
    (hcreate : User.create id now email name createdBy md = .ok u0)
    (hclean : db0.eventLog.filter (fun r => r.aggregateId = u0.id) = [])
    (hrun : runSysOps u0 db0 ops = .ok (u, db)) :
    (u0.version = 1 ∧ u0.domainEvents.length = 1) ∧
    (∀ (v : User) (op : MutOp) (v1 : User), applyMutOp v op = .ok v1 →
       v1 = v ∨ (v1.version = v.version + 1 ∧
                 v1.domainEvents.length = v.domainEvents.length + 1)) ∧
    u.version = (db.eventLog.filter fun r => r.aggregateId = u.id).length +
        u.domainEvents.length ∧
    (u.domainEvents = [] →
      ((db.eventLog.filter fun r => r.aggregateId = u.id).map fun r => r.eventVersion) =
        List.range' 1 u.version) := by
  have hshape : u0.version = 1 ∧ u0.domainEvents.length = 1 ∧
      ∀ e ∈ u0.domainEvents, e.aggregateId = u0.id := by
    unfold User.create at hcreate
    rcases hm : User.make id (some (jsTrim (jsToLower email))) (some (jsTrim name))
        now now none createdBy none none with e | base
    · rw [hm] at hcreate; cases hcreate
    · rw [hm] at hcreate
      simp only [Except.ok.injEq] at hcreate
      have hb := make_ok_eq hm
      subst hb
      subst hcreate
      refine ⟨rfl, rfl, ?_⟩
      intro e he
      simp only [User.addDomainEvent, List.nil_append, List.mem_singleton] at he
      rw [he]
      rfl
  have hbase : StreamInv u0 db0 := by
    refine ⟨?_, ?_, hshape.2.2⟩
    · rw [hclean]; rfl
    · rw [hclean, hshape.1, hshape.2.1]
      rfl
  have hrec : ∀ (l : List SysOp) (v : User) (dbv : DB), StreamInv v dbv →
      runSysOps v dbv l = .ok (u, db) → StreamInv u db := by
    intro l
    induction l with
    | nil =>
      intro v dbv hv hr
      simp only [runSysOps, Except.ok.injEq, Prod.mk.injEq] at hr
      obtain ⟨hru, hrd⟩ := hr
      subst hru
      subst hrd
      exact hv
    | cons op l ih =>
      intro v dbv hv hr
      cases op with
      | mutate m =>
        simp only [runSysOps] at hr
        rcases hstep : applyMutOp v m with e | v1
        · rw [hstep] at hr; cases hr
        · rw [hstep] at hr
          exact ih v1 dbv (streamInv_mut hv hstep) hr
      | saveOp =>
        simp only [runSysOps] at hr
        rcases hsv : saveRepo dbv v with ⟨res, db1⟩
        rw [hsv] at hr
        rcases res with e | v1
        · cases hr
        · exact ih v1 db1 (streamInv_save hv hsv) hr
  have hfin : StreamInv u db := hrec ops u0 db0 hbase hrun
  refine ⟨⟨hshape.1, hshape.2.1⟩, ?_, hfin.2.1, ?_⟩
  · intro v op v1 hstep
    cases op with
    | updName s b vnow vmd =>
      rcases updateName_ok_cases hstep with rfl | hform
      · exact Or.inl rfl
      · subst hform
        exact Or.inr ⟨rfl, by simp [User.addDomainEvent]⟩
    | updEmail s b vnow vmd =>
      rcases updateEmail_ok_cases hstep with rfl | hform
      · exact Or.inl rfl
      · subst hform
        exact Or.inr ⟨rfl, by simp [User.addDomainEvent]⟩
    | del b vnow vmd =>
      simp only [applyMutOp, Except.ok.injEq] at hstep
      rcases delete_cases v b vnow vmd with hdel | hdel
      · rw [hdel] at hstep
        exact Or.inl hstep.symm
      · rw [hdel] at hstep
        subst hstep
        exact Or.inr ⟨rfl, by simp [User.addDomainEvent]⟩
  · intro hflushed
    have h2 := hfin.2.1
    rw [hflushed] at h2
    simp only [List.length_nil, Nat.add_zero] at h2
    rw [h2]
    exact hfin.1

/-- The created user of the concrete C5 scenario. -/
def flowU0 : User := (User.create "u1" 0 "a@x.com" "Ann" none none).toOption.getD normalUser

/-- Final aggregate and database of the concrete C5 scenario: create, rename to
"Anna", save. -/
def flowRes : User × DB :=
  (runSysOps flowU0 DB.empty
    [SysOp.mutate (MutOp.updName "Anna" none 1 none), SysOp.saveOp]).toOption.getD
    (normalUser, DB.empty)

/-- Witness for C5 at the concrete scenario: two mutations (creation and one
rename), one save — the version is 2 and the stored stream is exactly
`eventVersion` 1, 2. -/
theorem version_monotonicity_gapless_witness :
    flowRes.1.version =
      (flowRes.2.eventLog.filter fun r => r.aggregateId = flowRes.1.id).length +
        flowRes.1.domainEvents.length ∧
    ((flowRes.2.eventLog.filter fun r => r.aggregateId = flowRes.1.id).map
        fun r => r.eventVersion) = List.range' 1 flowRes.1.version := by
  have h := version_monotonicity_gapless "u1" 0 "a@x.com" "Ann" none none
    [SysOp.mutate (MutOp.updName "Anna" none 1 none), SysOp.saveOp] DB.empty
    flowU0 flowRes.1 flowRes.2 (by rfl) (by rfl) (by rfl)
  exact ⟨h.2.2.1, h.2.2.2 (by rfl)⟩

/-! ## C9 — uniqueness pre-check before any append -/

/-- C9: whenever the repository's own `findByEmail` lookup yields a live
aggregate carrying the same email under a different id, `save` raises
`ConflictError` and returns with the database untouched — in particular, the
event log receives no rows from that save call, because the check runs before
`saveEvents` is ever reached. -/
theorem save_conflict_before_append (db : DB) (u ex : User)
    (hbe : findByEmailRepo db u.email = .ok (some ex))
    (hid : ex.id ≠ u.id) :
    saveRepo db u = (.error (.conflict "User with email already exists"), db) := by
  unfold saveRepo
  rw [hbe]
  show (if ex.id ≠ u.id then
      ((Except.error (UError.conflict "User with email already exists") :
        Except UError User), db)
    else saveRepo.saveRepoWrite db u) = _
  rw [if_pos hid]

/-- A live snapshot row of a different aggregate holding the email
"a@x.com". -/
def conflictRow : UserRow :=
  { id := "u2", email := some "a@x.com", name := some "Bea", version := 1,
    createdAt := 0, updatedAt := 0, deletedAt := none, createdBy := none,
    updatedBy := none, deletedBy := none }

/-- Database whose snapshot table already maps "a@x.com" to aggregate "u2". -/
def conflictDB : DB := { eventLog := [], users := [conflictRow], outbox := [] }

/-- The user the repository reconstructs for `conflictRow` (snapshot fallback,
so version 0 and no history). -/
def conflictEx : User :=
  { id := "u2", createdAt := 0, updatedAt := 0, email := some "a@x.com",
    name := some "Bea", deletedAt := none, createdBy := none, updatedBy := none,
    deletedBy := none, version := 0, domainEvents := [] }

/-- Witness for C9: saving `normalUser` (id "u1", email "a@x.com") while "u2"
already holds that email fails with `ConflictError` and leaves the database —
event log included — unchanged. -/
theorem save_conflict_before_append_witness :
    saveRepo conflictDB normalUser =
      (.error (.conflict "User with email already exists"), conflictDB) :=
  save_conflict_before_append conflictDB normalUser conflictEx (by rfl) (by decide)
